import Mathlib

/-!
Verification of the adaptive mastery tracker and weakness-prioritized
scheduler of the Kanji-Driller repository (src/ui.py, src/logic.py).

The Python code is shallowly embedded: Python ints become Int/Nat,
Python floats become Rat (the quantities involved are decimal constants
and ratios of integers, so the embedding is exact up to float rounding),
dicts holding a performance bucket become a structure, and the pseudo
random sources (random.random, random.randrange, random.sample) become
explicit input streams: a list of rational draws in [0,1) for
random.random and a list of naturals for index picks, an index pick
being reduced modulo the population size exactly as randrange bounds it.
-/

namespace KanjiDriller

/-- Python round(x, 2) from ui.py line 2115, embedded on rationals.
Python rounds floats half to even; on the rational embedding we use the
integer rounding of Mathlib, which differs only on exact multiples of
0.005, values that play no role in the claims below. -/
def round2 (q : ℚ) : ℚ := ((round (q * 100) : ℤ) : ℚ) / 100

/-- Python round(x, 3) from ui.py line 1845 (average proficiency). -/
def round3 (q : ℚ) : ℚ := ((round (q * 1000) : ℤ) : ℚ) / 1000

/-- Decay step of the mastery engine, ui.py lines 2074-2089: age is 0
when mastery_last_seen is not positive, decay fires only when age is at
least 20, at a tiered rate (0.5 per 100 questions below age 200, else
1.0), floored at 0. -/
def applyDecay (m0 : ℚ) (lastSeen nowQ : ℤ) : ℚ :=
  let age : ℤ := if 0 < lastSeen then max 0 (nowQ - lastSeen) else 0
  if 20 ≤ age then
    let rate : ℚ := if age < 200 then 1/2 else 1
    max 0 (m0 - ((age : ℚ) / 100) * rate)
  else m0

/-- Gain on a correct answer, ui.py lines 2092-2099: base 3.5 for the
Reading drill and 2.5 otherwise, scaled by (1 - mastery/100), halved
when weakness prioritization is active. -/
def gainOf (prioritize reading : Bool) (m1 : ℚ) : ℚ :=
  let baseGain : ℚ := if reading then 7/2 else 5/2
  let gain := baseGain * (1 - m1 / 100)
  if prioritize then gain * (1/2) else gain

/-- Mastery engine update, ui.py lines 2070-2115: decay, then on a
correct answer the diminishing-returns gain with the certification gate
at 99 (promotion to 100 needs mastery_streak at least 7 after the
increment and total_encounters at least 25, else clamp to 99), on an
incorrect answer the penalty max(12, 0.15 * mastery) floored at 0 and a
streak reset; the result is rounded to 2 decimals. Returns the pair of
the new mastery and the new mastery_streak. -/
def masteryUpdate (prioritize reading isCorrect : Bool) (m0 : ℚ) (streak0 : ℕ)
    (lastSeen nowQ : ℤ) (totalEnc : ℕ) : ℚ × ℕ :=
  let m1 := applyDecay m0 lastSeen nowQ
  if isCorrect then
    let streak1 := streak0 + 1
    let m2 := m1 + gainOf prioritize reading m1
    let m3 := if 99 ≤ m2 then (if 7 ≤ streak1 ∧ 25 ≤ totalEnc then (100 : ℚ) else min m2 99) else m2
    (round2 m3, streak1)
  else
    let penalty := max 12 (m1 * (3/20))
    (round2 (max 0 (m1 - penalty)), 0)

/-- One answered question as the mastery engine sees it: the flags of
the session, the value of the global question counter at the answer and
the total_encounters value read by the certification gate. -/
structure AnswerEvent where
  prioritize : Bool
  reading : Bool
  isCorrect : Bool
  nowQ : ℤ
  totalEnc : ℕ

/-- One step of a run of answers over the state (mastery,
mastery_streak, mastery_last_seen): the engine runs only while
weakness prioritization is active (ui.py line 2049), and always stamps
mastery_last_seen with the current counter (ui.py line 2116). -/
def masteryStep (s : ℚ × ℕ × ℤ) (e : AnswerEvent) : ℚ × ℕ × ℤ :=
  if e.prioritize then
    let r := masteryUpdate e.prioritize e.reading e.isCorrect s.1 s.2.1 s.2.2 e.nowQ e.totalEnc
    (r.1, r.2, e.nowQ)
  else s

/-- A whole sequence of answered questions folded over the bucket. -/
def masteryRun (s : ℚ × ℕ × ℤ) (evs : List AnswerEvent) : ℚ × ℕ × ℤ :=
  evs.foldl masteryStep s

lemma round2_nonneg {q : ℚ} (h0 : 0 ≤ q) : 0 ≤ round2 q := by
  unfold round2
  have h1 : (0 : ℤ) ≤ round (q * 100) := by
    rw [round_eq]
    have : (0 : ℚ) ≤ q * 100 + 1/2 := by nlinarith
    exact Int.floor_nonneg.mpr this
  have h2 : (0 : ℚ) ≤ ((round (q * 100) : ℤ) : ℚ) := by exact_mod_cast h1
  linarith

lemma round2_le {q : ℚ} {c : ℤ} (h : q ≤ (c : ℚ)) : round2 q ≤ (c : ℚ) := by
  unfold round2
  have hx : q * 100 + 1/2 < ((100 * c + 1 : ℤ) : ℚ) := by push_cast; nlinarith
  have hfl : ⌊q * 100 + 1/2⌋ < 100 * c + 1 := Int.floor_lt.mpr hx
  have hr : round (q * 100) ≤ 100 * c := by rw [round_eq]; omega
  have hrq : ((round (q * 100) : ℤ) : ℚ) ≤ ((100 * c : ℤ) : ℚ) := by exact_mod_cast hr
  have h2 : ((100 * c : ℤ) : ℚ) = 100 * (c : ℚ) := by push_cast; ring
  rw [h2] at hrq
  linarith

lemma applyDecay_cases (m0 : ℚ) (lastSeen nowQ : ℤ) :
    applyDecay m0 lastSeen nowQ = m0 ∨
    ∃ d : ℚ, 0 ≤ d ∧ applyDecay m0 lastSeen nowQ = max 0 (m0 - d) := by
  by_cases hls : 0 < lastSeen
  · simp only [applyDecay, if_pos hls]
    split
    · right
      refine ⟨_, ?_, rfl⟩
      have hq : (0 : ℚ) ≤ ((max 0 (nowQ - lastSeen) : ℤ) : ℚ) := by
        exact_mod_cast le_max_left 0 (nowQ - lastSeen)
      have hrate : (0 : ℚ) ≤ (if (max 0 (nowQ - lastSeen) : ℤ) < 200 then (1/2 : ℚ) else 1) := by
        split <;> norm_num
      positivity
    · left; rfl
  · left
    simp only [applyDecay, if_neg hls]
    norm_num

lemma applyDecay_nonneg {m0 : ℚ} (h0 : 0 ≤ m0) (lastSeen nowQ : ℤ) :
    0 ≤ applyDecay m0 lastSeen nowQ := by
  rcases applyDecay_cases m0 lastSeen nowQ with h | ⟨d, _, h⟩
  · rw [h]; exact h0
  · rw [h]; exact le_max_left 0 _

lemma applyDecay_le {m0 : ℚ} (h0 : 0 ≤ m0) (lastSeen nowQ : ℤ) :
    applyDecay m0 lastSeen nowQ ≤ m0 := by
  rcases applyDecay_cases m0 lastSeen nowQ with h | ⟨d, hd, h⟩
  · rw [h]
  · rw [h]
    exact max_le h0 (by linarith)

lemma gainOf_nonneg {m1 : ℚ} (h : m1 ≤ 100) (pr rd : Bool) : 0 ≤ gainOf pr rd m1 := by
  simp only [gainOf]
  cases pr <;> cases rd <;> simp <;> nlinarith

lemma add_gainOf_le_100 {m1 : ℚ} (h1 : m1 ≤ 100) (pr rd : Bool) :
    m1 + gainOf pr rd m1 ≤ 100 := by
  simp only [gainOf]
  cases pr <;> cases rd <;> simp <;> nlinarith

lemma masteryUpdate_range (pr rd c : Bool) {m0 : ℚ} (st : ℕ) (ls now : ℤ) (te : ℕ)
    (h0 : 0 ≤ m0) (h1 : m0 ≤ 100) :
    0 ≤ (masteryUpdate pr rd c m0 st ls now te).1 ∧
    (masteryUpdate pr rd c m0 st ls now te).1 ≤ 100 := by
  have hd0 : 0 ≤ applyDecay m0 ls now := applyDecay_nonneg h0 ls now
  have hd1 : applyDecay m0 ls now ≤ 100 := le_trans (applyDecay_le h0 ls now) h1
  have hg0 : 0 ≤ gainOf pr rd (applyDecay m0 ls now) := gainOf_nonneg hd1 pr rd
  have hg1 : applyDecay m0 ls now + gainOf pr rd (applyDecay m0 ls now) ≤ 100 :=
    add_gainOf_le_100 hd1 pr rd
  simp only [masteryUpdate]
  cases c
  · simp only [Bool.false_eq_true, if_false]
    constructor
    · exact round2_nonneg (le_max_left 0 _)
    · have hx : max 0 (applyDecay m0 ls now - max 12 (applyDecay m0 ls now * (3/20))) ≤ (100 : ℚ) := by
        apply max_le (by norm_num)
        have : (12 : ℚ) ≤ max 12 (applyDecay m0 ls now * (3/20)) := le_max_left _ _
        linarith
      exact_mod_cast round2_le (c := 100) (by exact_mod_cast hx)
  · simp only [if_true]
    constructor
    · apply round2_nonneg
      split
      · split
        · norm_num
        · exact le_min (by linarith) (by norm_num)
      · linarith
    · have hx : (if 99 ≤ applyDecay m0 ls now + gainOf pr rd (applyDecay m0 ls now) then
          (if 7 ≤ st + 1 ∧ 25 ≤ te then (100 : ℚ)
            else min (applyDecay m0 ls now + gainOf pr rd (applyDecay m0 ls now)) 99)
          else applyDecay m0 ls now + gainOf pr rd (applyDecay m0 ls now)) ≤ (100 : ℚ) := by
        split
        · split
          · norm_num
          · exact le_trans (min_le_right _ _) (by norm_num)
        · exact hg1
      exact_mod_cast round2_le (c := 100) (by exact_mod_cast hx)

lemma masteryStep_range (s : ℚ × ℕ × ℤ) (e : AnswerEvent) (h0 : 0 ≤ s.1) (h1 : s.1 ≤ 100) :
    0 ≤ (masteryStep s e).1 ∧ (masteryStep s e).1 ≤ 100 := by
  simp only [masteryStep]
  split
  · exact masteryUpdate_range e.prioritize e.reading e.isCorrect s.2.1 s.2.2 e.nowQ e.totalEnc h0 h1
  · exact ⟨h0, h1⟩

/-- Claim C1: for every performance bucket whose mastery starts in [0,100],
after any sequence of answer updates (any mix of correct and incorrect
answers, any question-counter values, prioritization on or off), the
bucket's mastery remains in [0,100]. -/
theorem C1_mastery_stays_in_range (s : ℚ × ℕ × ℤ) (evs : List AnswerEvent)
    (h0 : 0 ≤ s.1) (h1 : s.1 ≤ 100) :
    0 ≤ (masteryRun s evs).1 ∧ (masteryRun s evs).1 ≤ 100 := by
  induction evs generalizing s with
  | nil => exact ⟨h0, h1⟩
  | cons e evs ih =>
    have hstep := masteryStep_range s e h0 h1
    simpa only [masteryRun, List.foldl_cons] using ih (masteryStep s e) hstep.1 hstep.2

/-- Witness for C1 at a concrete bucket and a concrete two-answer run. -/
theorem C1_witness :
    0 ≤ (masteryRun (50, 0, 0)
      [{ prioritize := true, reading := true, isCorrect := true, nowQ := 5, totalEnc := 1 },
       { prioritize := true, reading := false, isCorrect := false, nowQ := 9, totalEnc := 2 }]).1 ∧
    (masteryRun (50, 0, 0)
      [{ prioritize := true, reading := true, isCorrect := true, nowQ := 5, totalEnc := 1 },
       { prioritize := true, reading := false, isCorrect := false, nowQ := 9, totalEnc := 2 }]).1 ≤ 100 :=
  C1_mastery_stays_in_range (50, 0, 0) _ (by norm_num) (by norm_num)

/-- Claim C2: mastery reaches exactly 100 only when, at the moment the
correct-answer update would push post-decay mastery to at least 99, the
incremented mastery_streak is at least 7 and total_encounters is at
least 25; when that condition fails on a correct answer pushing mastery
to at least 99, mastery is clamped to at most 99. The streak the gate
reads (ui.py line 2104) has already been incremented at line 2101, so it
is streak0 + 1 here. -/
theorem C2_certification_gate (pr rd c : Bool) (m0 : ℚ) (st : ℕ) (ls now : ℤ) (te : ℕ)
    (h0 : 0 ≤ m0) (h1 : m0 ≤ 100) :
    ((masteryUpdate pr rd c m0 st ls now te).1 = 100 →
      c = true ∧ 7 ≤ st + 1 ∧ 25 ≤ te ∧
      99 ≤ applyDecay m0 ls now + gainOf pr rd (applyDecay m0 ls now)) ∧
    (c = true → 99 ≤ applyDecay m0 ls now + gainOf pr rd (applyDecay m0 ls now) →
      ¬ (7 ≤ st + 1 ∧ 25 ≤ te) → (masteryUpdate pr rd c m0 st ls now te).1 ≤ 99) := by
  have hd0 : 0 ≤ applyDecay m0 ls now := applyDecay_nonneg h0 ls now
  have hd1 : applyDecay m0 ls now ≤ 100 := le_trans (applyDecay_le h0 ls now) h1
  cases c
  · constructor
    · intro h100
      exfalso
      simp only [masteryUpdate, Bool.false_eq_true, if_false] at h100
      have hx : max 0 (applyDecay m0 ls now - max 12 (applyDecay m0 ls now * (3/20))) ≤ ((88 : ℤ) : ℚ) := by
        apply max_le (by norm_num)
        have : (12 : ℚ) ≤ max 12 (applyDecay m0 ls now * (3/20)) := le_max_left _ _
        push_cast
        linarith
      have := round2_le hx
      rw [h100] at this
      norm_num at this
    · intro hc
      exact absurd hc (by simp)
  · constructor
    · intro h100
      refine ⟨rfl, ?_⟩
      simp only [masteryUpdate, if_true] at h100
      by_cases h99 : 99 ≤ applyDecay m0 ls now + gainOf pr rd (applyDecay m0 ls now)
      · rw [if_pos h99] at h100
        by_cases hgate : 7 ≤ st + 1 ∧ 25 ≤ te
        · exact ⟨hgate.1, hgate.2, h99⟩
        · exfalso
          rw [if_neg hgate] at h100
          have hx : min (applyDecay m0 ls now + gainOf pr rd (applyDecay m0 ls now)) 99 ≤ ((99 : ℤ) : ℚ) := by
            push_cast
            exact min_le_right _ _
          have := round2_le hx
          rw [h100] at this
          norm_num at this
      · exfalso
        rw [if_neg h99] at h100
        have hx : applyDecay m0 ls now + gainOf pr rd (applyDecay m0 ls now) ≤ ((99 : ℤ) : ℚ) := by
          push_cast
          linarith [not_le.mp h99]
        have := round2_le hx
        rw [h100] at this
        norm_num at this
    · intro _ h99 hgate
      simp only [masteryUpdate, if_true, if_pos h99, if_neg hgate]
      have hx : min (applyDecay m0 ls now + gainOf pr rd (applyDecay m0 ls now)) 99 ≤ ((99 : ℤ) : ℚ) := by
        push_cast
        exact min_le_right _ _
      have := round2_le hx
      exact_mod_cast this

/-- Witness for C2: a correct answer at mastery 99 with a too-short
streak is clamped to at most 99. -/
theorem C2_witness : (masteryUpdate false false true 99 0 0 1 30).1 ≤ 99 :=
  (C2_certification_gate false false true 99 0 0 1 30 (by norm_num) (by norm_num)).2 rfl
    (by norm_num [applyDecay, gainOf]) (by norm_num)

/-- Claim C5: after decay, the per-answer mastery update is, on a
correct answer below the certification region, an increase by
base * (1 - mastery/100) (base 3.5 for the Reading drill, 2.5
otherwise, halved when weakness prioritization is active) with the
streak incremented; on an incorrect answer, a decrease by
max(12, mastery * 0.15) floored at 0 with the streak reset to 0. The
result is rounded to 2 decimals (ui.py line 2115). -/
theorem C5_post_decay_update (pr rd : Bool) (m0 : ℚ) (st : ℕ) (ls now : ℤ) (te : ℕ) :
    (applyDecay m0 ls now + gainOf pr rd (applyDecay m0 ls now) < 99 →
      masteryUpdate pr rd true m0 st ls now te =
        (round2 (applyDecay m0 ls now + gainOf pr rd (applyDecay m0 ls now)), st + 1)) ∧
    (masteryUpdate pr rd false m0 st ls now te =
        (round2 (max 0 (applyDecay m0 ls now - max 12 (applyDecay m0 ls now * (3/20)))), 0)) ∧
    gainOf pr rd (applyDecay m0 ls now) =
      (if pr then (1 : ℚ)/2 else 1) *
        ((if rd then (7 : ℚ)/2 else 5/2) * (1 - applyDecay m0 ls now / 100)) := by
  refine ⟨?_, ?_, ?_⟩
  · intro h99
    simp only [masteryUpdate, if_true, if_neg (not_le.mpr h99)]
  · simp only [masteryUpdate, Bool.false_eq_true, if_false]
  · simp only [gainOf]
    cases pr <;> cases rd <;> simp <;> ring

/-- Witness for C5: the two example scenarios of the spec, mastery 80
with a correct Reading answer under prioritization giving 80.35, and
mastery 50 with an incorrect answer giving 38. -/
theorem C5_witness :
    masteryUpdate true true true 80 3 0 7 10 = (1607/20, 4) ∧
    masteryUpdate true true false 50 3 0 7 10 = (38, 0) := by
  constructor
  · have h := (C5_post_decay_update true true 80 3 0 7 10).1 (by norm_num [applyDecay, gainOf])
    rw [h]
    norm_num [applyDecay, gainOf, round2, round_eq]
  · have h := (C5_post_decay_update true true 50 3 0 7 10).2.1
    rw [h]
    norm_num [applyDecay, round2, round_eq]

/-- One per-item per-system per-mode performance bucket (ui.py lines
1966-1979). -/
structure Bucket where
  right : ℕ
  wrong : ℕ
  streak : ℕ
  pw_right : ℕ
  pw_wrong : ℕ
  pw_streak : ℕ
  pw_last_seen : ℤ
  pw_last_seen_session : ℤ
  mastery : ℚ
  mastery_streak : ℕ
  mastery_last_seen : ℤ
deriving DecidableEq

/-- Result of one answered question: the new bucket, the new
total_encounters of the item and the new global pw_question_counter. -/
structure UpdateResult where
  bucket : Bucket
  totalEncounters : ℕ
  pwQuestionCounter : ℤ
deriving DecidableEq

/-- The per-answer coordinator update, ui.py lines 2015-2123
(update_stats_and_profile): total_encounters and right/wrong/streak are
updated unconditionally; the pw_question_counter increment, the pw_*
fields and the whole mastery-engine block run only when weakness
prioritization is active (the branch opened at line 2049). XP
bookkeeping and the daily activity counter touched by
_record_one_question_now are profile display state outside the modeled
core. -/
def update_stats_and_profile (prioritize reading : Bool) (sessionId : ℤ) (isCorrect : Bool)
    (b : Bucket) (totalEnc : ℕ) (pwQC : ℤ) : UpdateResult :=
  let totalEnc1 := totalEnc + 1
  let b1 := if isCorrect then { b with right := b.right + 1, streak := b.streak + 1 }
            else { b with wrong := b.wrong + 1, streak := 0 }
  if prioritize then
    let now := pwQC + 1
    let b2 := { b1 with pw_last_seen := now, pw_last_seen_session := sessionId }
    let b3 := if isCorrect then { b2 with pw_right := b2.pw_right + 1, pw_streak := b2.pw_streak + 1 }
              else { b2 with pw_wrong := b2.pw_wrong + 1, pw_streak := 0 }
    let ms := masteryUpdate prioritize reading isCorrect b3.mastery b3.mastery_streak b3.mastery_last_seen now totalEnc1
    { bucket := { b3 with mastery := ms.1, mastery_streak := ms.2, mastery_last_seen := now },
      totalEncounters := totalEnc1, pwQuestionCounter := now }
  else
    { bucket := b1, totalEncounters := totalEnc1, pwQuestionCounter := pwQC }

/-- A concrete bucket used in the counterexample and witness for C4. -/
def cxBucket : Bucket :=
  { right := 0, wrong := 0, streak := 0, pw_right := 0, pw_wrong := 0, pw_streak := 0,
    pw_last_seen := 0, pw_last_seen_session := 0, mastery := 50, mastery_streak := 3,
    mastery_last_seen := 0 }

/-- Counterexample to C4 as stated: with weakness prioritization OFF,
an incorrect answer at mastery 50 leaves mastery at 50, while the
mastery-engine update at that state would give 38. The engine is NOT
applied when prioritization is off. -/
theorem C4_counterexample :
    (update_stats_and_profile false false 0 false cxBucket 0 0).bucket.mastery = 50 ∧
    (masteryUpdate false false false 50 3 0 1 1).1 = 38 ∧ (50 : ℚ) ≠ 38 := by
  refine ⟨by simp [update_stats_and_profile, cxBucket], ?_, by norm_num⟩
  norm_num [masteryUpdate, applyDecay, round2, round_eq]

/-- Claim C4 amended: for each answered question, right/wrong/streak
and total_encounters are updated unconditionally, but the mastery
engine update (decay, gain or penalty), the pw_* bucket fields and the
pw_question_counter increment all happen only when weakness
prioritization is active. -/
theorem C4_update_gating (pr rd : Bool) (sid : ℤ) (c : Bool) (b : Bucket) (te : ℕ) (qc : ℤ) :
    (update_stats_and_profile pr rd sid c b te qc).totalEncounters = te + 1 ∧
    (c = true →
      (update_stats_and_profile pr rd sid c b te qc).bucket.right = b.right + 1 ∧
      (update_stats_and_profile pr rd sid c b te qc).bucket.streak = b.streak + 1 ∧
      (update_stats_and_profile pr rd sid c b te qc).bucket.wrong = b.wrong) ∧
    (c = false →
      (update_stats_and_profile pr rd sid c b te qc).bucket.wrong = b.wrong + 1 ∧
      (update_stats_and_profile pr rd sid c b te qc).bucket.streak = 0 ∧
      (update_stats_and_profile pr rd sid c b te qc).bucket.right = b.right) ∧
    (pr = false →
      (update_stats_and_profile pr rd sid c b te qc).bucket.mastery = b.mastery ∧
      (update_stats_and_profile pr rd sid c b te qc).bucket.mastery_streak = b.mastery_streak ∧
      (update_stats_and_profile pr rd sid c b te qc).bucket.mastery_last_seen = b.mastery_last_seen ∧
      (update_stats_and_profile pr rd sid c b te qc).bucket.pw_right = b.pw_right ∧
      (update_stats_and_profile pr rd sid c b te qc).bucket.pw_wrong = b.pw_wrong ∧
      (update_stats_and_profile pr rd sid c b te qc).bucket.pw_streak = b.pw_streak ∧
      (update_stats_and_profile pr rd sid c b te qc).bucket.pw_last_seen = b.pw_last_seen ∧
      (update_stats_and_profile pr rd sid c b te qc).bucket.pw_last_seen_session = b.pw_last_seen_session ∧
      (update_stats_and_profile pr rd sid c b te qc).pwQuestionCounter = qc) ∧
    (pr = true →
      (update_stats_and_profile pr rd sid c b te qc).pwQuestionCounter = qc + 1 ∧
      (update_stats_and_profile pr rd sid c b te qc).bucket.mastery =
        (masteryUpdate true rd c b.mastery b.mastery_streak b.mastery_last_seen (qc + 1) (te + 1)).1 ∧
      (update_stats_and_profile pr rd sid c b te qc).bucket.mastery_streak =
        (masteryUpdate true rd c b.mastery b.mastery_streak b.mastery_last_seen (qc + 1) (te + 1)).2 ∧
      (update_stats_and_profile pr rd sid c b te qc).bucket.mastery_last_seen = qc + 1 ∧
      (update_stats_and_profile pr rd sid c b te qc).bucket.pw_last_seen = qc + 1 ∧
      (update_stats_and_profile pr rd sid c b te qc).bucket.pw_last_seen_session = sid) := by
  cases pr <;> cases c <;> simp [update_stats_and_profile]

/-- Witness for C4 amended, at a concrete correct answer with
prioritization on: the lifetime counters advance and the question
counter increments. -/
theorem C4_witness :
    ((update_stats_and_profile true false 2 true cxBucket 0 5).bucket.right = cxBucket.right + 1 ∧
     (update_stats_and_profile true false 2 true cxBucket 0 5).bucket.streak = cxBucket.streak + 1 ∧
     (update_stats_and_profile true false 2 true cxBucket 0 5).bucket.wrong = cxBucket.wrong) ∧
    (update_stats_and_profile true false 2 true cxBucket 0 5).pwQuestionCounter = 5 + 1 :=
  ⟨(C4_update_gating true false 2 true cxBucket 0 5).2.1 rfl,
   ((C4_update_gating true false 2 true cxBucket 0 5).2.2.2.2 rfl).1⟩

/-- Session cooldown factor, ui.py lines 1766-1770: while a positive
cooldown is configured and the item's session age is within it, the
factor ramps linearly from 0.20 at age 0 to 1.0 at the cooldown bound;
otherwise it is 1.0. -/
def cooldownFactor (sessAge : ℤ) (coolSess : ℕ) : ℚ :=
  if 0 < coolSess ∧ sessAge ≤ (coolSess : ℤ) then
    1/5 + (4/5) * ((sessAge : ℚ) / (coolSess : ℚ))
  else 1

/-- Per-item sampling weight, ui.py lines 1731-1774 (_pw_weight_for_row)
restricted to its numeric core: Laplace-smoothed wrong rate, staleness
multiplier from the question-counter age capped at 200, cooldown
factor, floor 0.08 and the final clamp at 0.0001. -/
def pw_weight (pwRight pwWrong : ℕ) (pwLastSeen pwLastSeenSession nowQ nowSess : ℤ)
    (coolSess : ℕ) : ℚ :=
  let sessAge : ℤ := max 0 (nowSess - pwLastSeenSession)
  let wrongRate : ℚ := ((pwWrong : ℚ) + 1) / ((pwRight : ℚ) + (pwWrong : ℚ) + 2)
  let age : ℤ := max 0 (nowQ - pwLastSeen)
  let staleMult : ℚ := 1 + (min (age : ℚ) 200) / 200
  let factor : ℚ := cooldownFactor sessAge coolSess
  max (1/10000) ((2/25 + wrongRate * staleMult) * factor)

lemma cooldownFactor_ge {sa : ℤ} (h : 0 ≤ sa) (cs : ℕ) : 1/5 ≤ cooldownFactor sa cs := by
  unfold cooldownFactor
  split
  · rename_i hc
    have hcs : (0 : ℚ) < (cs : ℚ) := by exact_mod_cast hc.1
    have hsa : (0 : ℚ) ≤ (sa : ℚ) := by exact_mod_cast h
    have : (0 : ℚ) ≤ (sa : ℚ) / (cs : ℚ) := div_nonneg hsa (le_of_lt hcs)
    linarith
  · norm_num

lemma weight_max_mono_wr {wr1 wr2 sm f : ℚ} (h1 : 0 ≤ wr1) (h : wr1 < wr2)
    (hsm : 1 ≤ sm) (hf : 1/5 ≤ f) :
    max (1/10000 : ℚ) ((2/25 + wr1 * sm) * f) < max (1/10000) ((2/25 + wr2 * sm) * f) := by
  have hsm0 : (0 : ℚ) < sm := by linarith
  have hf0 : (0 : ℚ) < f := by linarith
  have hx : (0 : ℚ) ≤ wr1 * sm := mul_nonneg h1 (le_of_lt hsm0)
  have hb1 : (2/125 : ℚ) ≤ (2/25 + wr1 * sm) * f :=
    calc (2/125 : ℚ) = (2/25) * (1/5) := by norm_num
      _ ≤ (2/25 + wr1 * sm) * (1/5) := by nlinarith
      _ ≤ (2/25 + wr1 * sm) * f := mul_le_mul_of_nonneg_left hf (by linarith)
  have hlt : (2/25 + wr1 * sm) * f < (2/25 + wr2 * sm) * f := by
    have hs : wr1 * sm < wr2 * sm := mul_lt_mul_of_pos_right h hsm0
    exact mul_lt_mul_of_pos_right (by linarith) hf0
  rw [max_eq_right (le_trans (by norm_num) hb1),
    max_eq_right (le_trans (by norm_num) (le_of_lt (lt_of_le_of_lt hb1 hlt)))]
  exact hlt

lemma weight_max_mono_sm {wr sm1 sm2 f : ℚ} (hwr : 0 < wr) (h : sm1 < sm2)
    (hsm : 1 ≤ sm1) (hf : 1/5 ≤ f) :
    max (1/10000 : ℚ) ((2/25 + wr * sm1) * f) < max (1/10000) ((2/25 + wr * sm2) * f) := by
  have hsm0 : (0 : ℚ) < sm1 := by linarith
  have hf0 : (0 : ℚ) < f := by linarith
  have hx : (0 : ℚ) ≤ wr * sm1 := mul_nonneg (le_of_lt hwr) (le_of_lt hsm0)
  have hb1 : (2/125 : ℚ) ≤ (2/25 + wr * sm1) * f :=
    calc (2/125 : ℚ) = (2/25) * (1/5) := by norm_num
      _ ≤ (2/25 + wr * sm1) * (1/5) := by nlinarith
      _ ≤ (2/25 + wr * sm1) * f := mul_le_mul_of_nonneg_left hf (by linarith)
  have hlt : (2/25 + wr * sm1) * f < (2/25 + wr * sm2) * f := by
    have hs : wr * sm1 < wr * sm2 := mul_lt_mul_of_pos_left h hwr
    exact mul_lt_mul_of_pos_right (by linarith) hf0
  rw [max_eq_right (le_trans (by norm_num) hb1),
    max_eq_right (le_trans (by norm_num) (le_of_lt (lt_of_le_of_lt hb1 hlt)))]
  exact hlt

lemma staleMult_ge_one (a : ℤ) : 1 ≤ 1 + (min ((max 0 a : ℤ) : ℚ) 200) / 200 := by
  have h0 : (0 : ℚ) ≤ ((max 0 a : ℤ) : ℚ) := by exact_mod_cast le_max_left 0 a
  have : (0 : ℚ) ≤ min ((max 0 a : ℤ) : ℚ) 200 := le_min h0 (by norm_num)
  linarith

/-- Counterexample to C3 as stated: for the never-seen bucket of the
spec's first example scenario at question counter 500, the code's
weight is 1.08 (= 27/25), not approximately 0.58: the age is taken as
500, giving staleMult 2.0, not the claimed 1.0. -/
theorem C3_counterexample :
    pw_weight 0 0 0 0 500 0 0 = 27/25 ∧ (27/25 : ℚ) ≠ 29/50 := by
  constructor
  · norm_num [pw_weight, cooldownFactor]
  · norm_num

/-- Claim C3 amended: the weight function applies age =
max(0, nowQuestionCounter - pw_last_seen) even to a never-seen bucket
(pw_last_seen = 0), so the weight at such a bucket is
0.08 + 0.5 * (1 + min(now, 200)/200) (1.08 at now = 500); only the
mastery-decay path treats last_seen = 0 as age 0. -/
theorem C3_neverseen_weight (now : ℤ) (h : 0 ≤ now) :
    pw_weight 0 0 0 0 now 0 0 = 2/25 + (1 + (min ((now : ℤ) : ℚ) 200) / 200) / 2 ∧
    (∀ (m : ℚ) (nq : ℤ), applyDecay m 0 nq = m) := by
  constructor
  · simp only [pw_weight, cooldownFactor]
    have hmax : max (0 : ℤ) (now - 0) = now := by omega
    rw [hmax]
    have hsm : (1 : ℚ) ≤ 1 + (min ((now : ℤ) : ℚ) 200) / 200 := by
      have h0 : (0 : ℚ) ≤ ((now : ℤ) : ℚ) := by exact_mod_cast h
      have : (0 : ℚ) ≤ min ((now : ℤ) : ℚ) 200 := le_min h0 (by norm_num)
      linarith
    have hwr : ((0 : ℕ) : ℚ) + 1 = 1 := by norm_num
    norm_num
    rw [max_eq_right (by nlinarith)]
    ring
  · intro m nq
    simp [applyDecay]

/-- Witness for C3 amended at now = 500, where the weight is 27/25. -/
theorem C3_witness :
    pw_weight 0 0 0 0 500 0 0 = 2/25 + (1 + (min (((500 : ℤ) : ℤ) : ℚ) 200) / 200) / 2 :=
  (C3_neverseen_weight 500 (by norm_num)).1

/-- Claim C6: the weight is strictly monotone in pw_wrong and in the
question-counter age up to the 200 cap; under a positive cooldown a
session age of 0 gives factor exactly 0.20 and a session age at least
the cooldown gives factor exactly 1.0; and the weight is always
strictly positive. -/
theorem C6_weight_monotone :
    (∀ (r w1 w2 : ℕ) (ls lss nq ns : ℤ) (cs : ℕ), w1 < w2 →
      pw_weight r w1 ls lss nq ns cs < pw_weight r w2 ls lss nq ns cs) ∧
    (∀ (r w : ℕ) (ls lss nq1 nq2 ns : ℤ) (cs : ℕ),
      ls ≤ nq1 → nq1 < nq2 → nq2 - ls ≤ 200 →
      pw_weight r w ls lss nq1 ns cs < pw_weight r w ls lss nq2 ns cs) ∧
    (∀ cs : ℕ, 0 < cs → cooldownFactor 0 cs = 1/5) ∧
    (∀ (sa : ℤ) (cs : ℕ), 0 < cs → (cs : ℤ) ≤ sa → cooldownFactor sa cs = 1) ∧
    (∀ (r w : ℕ) (ls lss nq ns : ℤ) (cs : ℕ), 0 < pw_weight r w ls lss nq ns cs) := by
  refine ⟨?_, ?_, ?_, ?_, ?_⟩
  · intro r w1 w2 ls lss nq ns cs hw
    simp only [pw_weight]
    apply weight_max_mono_wr
    · positivity
    · have hw1 : ((w1 : ℚ)) < (w2 : ℚ) := by exact_mod_cast hw
      have hr : (0 : ℚ) ≤ (r : ℚ) := by positivity
      have d1 : (0 : ℚ) < (r : ℚ) + (w1 : ℚ) + 2 := by positivity
      have d2 : (0 : ℚ) < (r : ℚ) + (w2 : ℚ) + 2 := by positivity
      rw [div_lt_div_iff₀ d1 d2]
      nlinarith
    · exact staleMult_ge_one _
    · exact cooldownFactor_ge (le_max_left 0 _) cs
  · intro r w ls lss nq1 nq2 ns cs h1 h2 h3
    simp only [pw_weight]
    have ha1 : max (0 : ℤ) (nq1 - ls) = nq1 - ls := by omega
    have ha2 : max (0 : ℤ) (nq2 - ls) = nq2 - ls := by omega
    rw [ha1, ha2]
    have hm1 : min (((nq1 - ls : ℤ)) : ℚ) 200 = ((nq1 - ls : ℤ) : ℚ) := by
      apply min_eq_left
      have : (nq1 - ls : ℤ) ≤ 200 := by omega
      exact_mod_cast this
    have hm2 : min (((nq2 - ls : ℤ)) : ℚ) 200 = ((nq2 - ls : ℤ) : ℚ) := by
      apply min_eq_left
      have : (nq2 - ls : ℤ) ≤ 200 := by omega
      exact_mod_cast this
    rw [hm1, hm2]
    apply weight_max_mono_sm
    · positivity
    · have : ((nq1 - ls : ℤ) : ℚ) < ((nq2 - ls : ℤ) : ℚ) := by
        have : (nq1 - ls : ℤ) < nq2 - ls := by omega
        exact_mod_cast this
      linarith
    · have : (0 : ℚ) ≤ ((nq1 - ls : ℤ) : ℚ) := by
        have : (0 : ℤ) ≤ nq1 - ls := by omega
        exact_mod_cast this
      linarith
    · exact cooldownFactor_ge (le_max_left 0 _) cs
  · intro cs hcs
    rw [cooldownFactor, if_pos ⟨hcs, by exact_mod_cast Nat.zero_le cs⟩]
    norm_num
  · intro sa cs hcs hle
    rcases eq_or_lt_of_le hle with heq | hlt
    · rw [cooldownFactor, if_pos ⟨hcs, le_of_eq heq.symm⟩, ← heq]
      have hne : ((cs : ℚ)) ≠ 0 := by
        have : (0 : ℚ) < (cs : ℚ) := by exact_mod_cast hcs
        exact ne_of_gt this
      push_cast
      field_simp
      norm_num
    · rw [cooldownFactor, if_neg]
      intro hc
      exact absurd hc.2 (not_le.mpr hlt)
  · intro r w ls lss nq ns cs
    exact lt_of_lt_of_le (by norm_num) (le_max_left _ _)

/-- Witness for C6 at concrete inputs: one more recorded wrong answer
strictly raises the weight, a larger age strictly raises it, the
cooldown factor endpoints, and strict positivity. -/
theorem C6_witness :
    pw_weight 2 0 0 0 10 0 0 < pw_weight 2 1 0 0 10 0 0 ∧
    pw_weight 2 1 0 0 10 0 0 < pw_weight 2 1 0 0 50 0 0 ∧
    cooldownFactor 0 3 = 1/5 ∧
    cooldownFactor 5 3 = 1 ∧
    0 < pw_weight 0 0 0 0 0 0 0 :=
  ⟨C6_weight_monotone.1 2 0 1 0 0 10 0 0 (by norm_num),
   C6_weight_monotone.2.1 2 1 0 0 10 50 0 0 (by norm_num) (by norm_num) (by norm_num),
   C6_weight_monotone.2.2.1 3 (by norm_num),
   C6_weight_monotone.2.2.2.1 5 3 (by norm_num) (by norm_num),
   C6_weight_monotone.2.2.2.2 0 0 0 0 0 0 0⟩

/-- Roulette walk of ui.py lines 1786-1791: accumulate the weights and
return the first index whose cumulative weight reaches the draw,
falling back to the last index when the walk runs out. -/
def rouletteWalk : List ℚ → ℚ → ℚ → ℕ → ℕ → ℕ
  | [], _, _, _, last => last
  | w :: ws, r, acc, i, last => if r ≤ acc + w then i else rouletteWalk ws r (acc + w) (i + 1) last

/-- The weighted index choice of ui.py lines 1777-1791
(_weighted_choice_index): when the weight total is not positive, a
uniform random index (random.randrange, modeled by an arbitrary pick
reduced modulo the population size); otherwise the roulette walk over
the draw u * total, u standing for random.random() in [0,1). The
caller passes indices and weights lists of equal length, so the length
of the weights list is used for both. -/
def weightedChoiceIndex (weights : List ℚ) (u : ℚ) (fallbackPick : ℕ) : ℕ :=
  let total := weights.foldl (fun a w => a + w) 0
  if total ≤ 0 then fallbackPick % weights.length
  else rouletteWalk weights (u * total) 0 0 (weights.length - 1)

/-- Selection loop of ui.py lines 1808-1813: n times, choose an index
among the remaining (position, weight) rows, pop it and record the
position. The rnd stream supplies one (u, fallbackPick) pair per
draw. The getD default is unreachable: the chosen index is always in
range (weightedChoiceIndex_lt below), matching list.pop never raising
here. -/
def sampleLoop : ℕ → List (ℕ × ℚ) → List (ℚ × ℕ) → List ℕ
  | 0, _, _ => []
  | _ + 1, [], _ => []
  | n + 1, row :: rows, rnd =>
      let rs := row :: rows
      let u : ℚ := ((rnd.head?).map Prod.fst).getD 0
      let fb : ℕ := ((rnd.head?).map Prod.snd).getD 0
      let i := weightedChoiceIndex (rs.map Prod.snd) u fb
      (rs.getD i (0, 0)).1 :: sampleLoop n (rs.eraseIdx i) rnd.tail

/-- Weighted sampling without replacement, ui.py lines 1794-1823
(get_pw_weighted_sample), on the positions of the pool: the pool is
represented by its per-row weights (one _pw_weight_for_row value per
row), the result is the list of chosen row positions (the code then
takes df.iloc of those positions). The n clamp of line 1800 is
max(1, min(n, len(df))). -/
def get_pw_weighted_sample (weights : List ℚ) (n : ℕ) (rnd : List (ℚ × ℕ)) : List ℕ :=
  if weights.length = 0 then []
  else sampleLoop (max 1 (min n weights.length)) ((List.range weights.length).zip weights) rnd

lemma rouletteWalk_bound : ∀ (ws : List ℚ) (r acc : ℚ) (i last : ℕ),
    rouletteWalk ws r acc i last < i + ws.length ∨ rouletteWalk ws r acc i last = last := by
  intro ws
  induction ws with
  | nil => intro r acc i last; right; rfl
  | cons w ws ih =>
    intro r acc i last
    simp only [rouletteWalk]
    split
    · left
      simp only [List.length_cons]
      omega
    · rcases ih r (acc + w) (i + 1) last with h | h
      · left
        simp only [List.length_cons]
        omega
      · right
        exact h

lemma weightedChoiceIndex_lt (ws : List ℚ) (u : ℚ) (fb : ℕ) (h : ws ≠ []) :
    weightedChoiceIndex ws u fb < ws.length := by
  have hlen : 0 < ws.length := List.length_pos.mpr h
  simp only [weightedChoiceIndex]
  split
  · exact Nat.mod_lt _ hlen
  · rcases rouletteWalk_bound ws (u * ws.foldl (fun a w => a + w) 0) 0 0 (ws.length - 1) with hb | hb
    · simpa using hb
    · rw [hb]
      omega

lemma map_eraseIdx {α β : Type} (f : α → β) :
    ∀ (l : List α) (i : ℕ), (l.eraseIdx i).map f = (l.map f).eraseIdx i
  | [], _ => by simp
  | _ :: _, 0 => by simp
  | a :: l, i + 1 => by
      simp only [List.eraseIdx_cons_succ, List.map_cons]
      rw [map_eraseIdx f l i]

lemma nodup_getElem_not_mem_eraseIdx {α : Type} :
    ∀ (l : List α) (i : ℕ) (h : i < l.length), l.Nodup → l[i] ∉ l.eraseIdx i
  | a :: t, 0, _, hn => by
      simp only [List.getElem_cons_zero, List.eraseIdx_cons_zero]
      exact (List.nodup_cons.mp hn).1
  | a :: t, i + 1, h, hn => by
      simp only [List.getElem_cons_succ, List.eraseIdx_cons_succ, List.mem_cons]
      push_neg
      have hb : i < t.length := by simpa using h
      constructor
      · intro heq
        have hmem : t[i] ∈ t := List.getElem_mem hb
        rw [heq] at hmem
        exact (List.nodup_cons.mp hn).1 hmem
      · exact nodup_getElem_not_mem_eraseIdx t i hb (List.nodup_cons.mp hn).2

lemma sampleLoop_spec : ∀ (n : ℕ) (rows : List (ℕ × ℚ)) (rnd : List (ℚ × ℕ)),
    n ≤ rows.length → (rows.map Prod.fst).Nodup →
    (sampleLoop n rows rnd).length = n ∧ (sampleLoop n rows rnd).Nodup ∧
    ∀ p ∈ sampleLoop n rows rnd, p ∈ rows.map Prod.fst := by
  intro n
  induction n with
  | zero =>
    intro rows rnd _ _
    refine ⟨rfl, List.nodup_nil, ?_⟩
    intro p hp
    simp [sampleLoop] at hp
  | succ n ih =>
    intro rows rnd h hn
    match rows with
    | [] => simp at h
    | row :: rows2 =>
      have hne : (row :: rows2 : List (ℕ × ℚ)) ≠ [] := by simp
      have hwne : ((row :: rows2).map Prod.snd : List ℚ) ≠ [] := by simp
      set rs : List (ℕ × ℚ) := row :: rows2 with hrs
      set u : ℚ := ((rnd.head?).map Prod.fst).getD 0 with hu
      set fb : ℕ := ((rnd.head?).map Prod.snd).getD 0 with hfb
      set i := weightedChoiceIndex (rs.map Prod.snd) u fb with hi
      have hilt : i < rs.length := by
        have := weightedChoiceIndex_lt (rs.map Prod.snd) u fb hwne
        simpa using this
      have hstep : sampleLoop (n + 1) rs rnd =
          (rs.getD i (0, 0)).1 :: sampleLoop n (rs.eraseIdx i) rnd.tail := by
        rw [hrs]
        rfl
      have hlen2 : (rs.eraseIdx i).length = rs.length - 1 := by
        rw [List.length_eraseIdx]
        simp [hilt]
      have hn2 : ((rs.eraseIdx i).map Prod.fst).Nodup := by
        rw [map_eraseIdx]
        exact List.Nodup.sublist (List.eraseIdx_sublist _ i) hn
      have hrec := ih (rs.eraseIdx i) rnd.tail (by omega) hn2
      have hiltm : i < (rs.map Prod.fst).length := by simpa using hilt
      have hhead : (rs.getD i (0, 0)).1 = (rs.map Prod.fst)[i] := by
        rw [List.getD_eq_getElem rs (0, 0) hilt]
        simp
      have hheadnot : (rs.getD i (0, 0)).1 ∉ (rs.eraseIdx i).map Prod.fst := by
        rw [hhead, map_eraseIdx]
        exact nodup_getElem_not_mem_eraseIdx (rs.map Prod.fst) i hiltm hn
      refine ⟨?_, ?_, ?_⟩
      · rw [hstep]
        simp [hrec.1]
      · rw [hstep]
        refine List.nodup_cons.mpr ⟨?_, hrec.2.1⟩
        intro hmem
        exact hheadnot (hrec.2.2 _ hmem)
      · rw [hstep]
        intro p hp
        rcases List.mem_cons.mp hp with hp | hp
        · rw [hp, hhead]
          exact List.getElem_mem hiltm
        · exact List.Sublist.subset ((List.eraseIdx_sublist rs i).map Prod.fst) (hrec.2.2 _ hp)

/-- Claim C7: for every pool and every n with 1 <= n <= pool size, the
weighted sampler returns exactly n positions, all distinct, all within
the pool; and when the total of the candidate weights is not positive,
the index choice falls back to a uniform random index (no division by
the total). -/
theorem C7_sampler_correct (weights : List ℚ) (n : ℕ) (rnd : List (ℚ × ℕ))
    (h1 : 1 ≤ n) (h2 : n ≤ weights.length) :
    ((get_pw_weighted_sample weights n rnd).length = n ∧
     (get_pw_weighted_sample weights n rnd).Nodup ∧
     (∀ p ∈ get_pw_weighted_sample weights n rnd, p < weights.length)) ∧
    (∀ (ws : List ℚ) (u : ℚ) (fb : ℕ), ws ≠ [] →
      ws.foldl (fun a w => a + w) 0 ≤ 0 →
      weightedChoiceIndex ws u fb = fb % ws.length) := by
  constructor
  · have hlen0 : weights.length ≠ 0 := by omega
    have hclamp : max 1 (min n weights.length) = n := by omega
    have hzlen : ((List.range weights.length).zip weights).length = weights.length := by
      rw [List.length_zip]
      simp
    have hzmap : ((List.range weights.length).zip weights).map Prod.fst = List.range weights.length :=
      List.map_fst_zip _ _ (by simp)
    have hznodup : (((List.range weights.length).zip weights).map Prod.fst).Nodup := by
      rw [hzmap]
      exact List.nodup_range _
    have hspec := sampleLoop_spec n ((List.range weights.length).zip weights) rnd
      (by rw [hzlen]; exact h2) hznodup
    have hunfold : get_pw_weighted_sample weights n rnd =
        sampleLoop n ((List.range weights.length).zip weights) rnd := by
      rw [get_pw_weighted_sample, if_neg hlen0, hclamp]
    rw [hunfold]
    refine ⟨hspec.1, hspec.2.1, ?_⟩
    intro p hp
    have := hspec.2.2 p hp
    rw [hzmap] at this
    exact List.mem_range.mp this
  · intro ws u fb _ htot
    simp only [weightedChoiceIndex]
    rw [if_pos htot]

/-- Witness for C7: a concrete pool of four weights sampled twice, and
a concrete all-zero-weight fallback choice. -/
theorem C7_witness :
    ((get_pw_weighted_sample [1, 1, 1, 1] 2 []).length = 2 ∧
     (get_pw_weighted_sample [1, 1, 1, 1] 2 []).Nodup ∧
     (∀ p ∈ get_pw_weighted_sample [1, 1, 1, 1] 2 [], p < ([1, 1, 1, 1] : List ℚ).length)) ∧
    weightedChoiceIndex [0, 0] (1/2) 5 = 5 % 2 :=
  ⟨(C7_sampler_correct [1, 1, 1, 1] 2 [] (by norm_num) (by norm_num)).1,
   (C7_sampler_correct [1, 1, 1, 1] 2 [] (by norm_num) (by norm_num)).2 [0, 0] (1/2) 5
     (by simp) (by norm_num)⟩

/-- Mastery lookup used by the average, ui.py lines 1835-1841: the
stats map is an association list from item key to the bucket's mastery
for the current (system, mode); a missing entry reads as 0.0, exactly
like the chain of dict.get defaults in the code. -/
def lookupMastery (stats : List (String × ℚ)) (k : String) : ℚ := ((stats.lookup k).getD 0)

/-- Pool-wide average proficiency, ui.py lines 1825-1845
(compute_average_proficiency_for_current_filter): iterate the filtered
pool rows, skip rows with an empty key, accumulate the looked-up
mastery (0.0 default) and the row count, divide, and round to 3
decimals; an empty count gives 0.0. -/
def compute_average_proficiency (pool : List String) (stats : List (String × ℚ)) : ℚ :=
  let tc := pool.foldl
    (fun (acc : ℚ × ℕ) k => if k = "" then acc else (acc.1 + lookupMastery stats k, acc.2 + 1))
    ((0 : ℚ), (0 : ℕ))
  if 0 < tc.2 then round3 (tc.1 / (tc.2 : ℚ)) else 0

/-- Modelled from the spec words of C8 for comparison: the arithmetic
mean of mastery over exactly those items of the pool that HAVE a
record for the current (system, modeKey); empty selection yields 0. -/
def averageMastery_spec (pool : List String) (stats : List (String × ℚ)) : ℚ :=
  let recs := pool.filter (fun k => (stats.lookup k).isSome)
  if recs.length = 0 then 0
  else ((recs.map (lookupMastery stats)).sum) / (recs.length : ℚ)

/-- The amended C8 contract, stated as a closed-form definition: the
mean over all pool items with a NONEMPTY key, items lacking a record
contributing mastery 0, rounded to 3 decimals, 0 when no keyed item
exists. -/
def averageMastery_amended (pool : List String) (stats : List (String × ℚ)) : ℚ :=
  let keyed := pool.filter (fun k => k != "")
  if keyed.length = 0 then 0
  else round3 ((keyed.map (lookupMastery stats)).sum / (keyed.length : ℚ))

lemma avg_foldl (stats : List (String × ℚ)) :
    ∀ (pool : List String) (a : ℚ) (c : ℕ),
      pool.foldl
        (fun (acc : ℚ × ℕ) k => if k = "" then acc else (acc.1 + lookupMastery stats k, acc.2 + 1))
        (a, c) =
      (a + ((pool.filter (fun k => k != "")).map (lookupMastery stats)).sum,
       c + (pool.filter (fun k => k != "")).length) := by
  intro pool
  induction pool with
  | nil => intro a c; simp
  | cons k pool ih =>
    intro a c
    by_cases hk : k = ""
    · rw [List.foldl_cons, if_pos hk, ih]
      have hf : (k :: pool).filter (fun k => k != "") = pool.filter (fun k => k != "") := by
        simp [List.filter_cons, hk]
      rw [hf]
    · rw [List.foldl_cons, if_neg hk, ih]
      have hf : (k :: pool).filter (fun k => k != "") = k :: pool.filter (fun k => k != "") := by
        simp [List.filter_cons, hk]
      rw [hf]
      simp only [List.map_cons, List.sum_cons, List.length_cons, Prod.mk.injEq]
      constructor
      · ring
      · omega

/-- Counterexample to C8 as stated: a pool of two keyed items of which
only one has a record. The code averages over BOTH (missing record
counted as mastery 0) and returns 25, while the spec's mean over items
having a record is 50. -/
theorem C8_counterexample :
    compute_average_proficiency ["a", "b"] [("a", 50)] = 25 ∧
    averageMastery_spec ["a", "b"] [("a", 50)] = 50 ∧ (25 : ℚ) ≠ 50 := by
  have hba : (("b" : String) == "a") = false := rfl
  have haa : (("a" : String) == "a") = true := rfl
  have hae : ¬ (("a" : String) = "") := by decide
  have hbe : ¬ (("b" : String) = "") := by decide
  refine ⟨?_, ?_, by norm_num⟩
  · simp only [compute_average_proficiency, lookupMastery, List.lookup, List.foldl_cons,
      List.foldl_nil, haa, hba, if_neg hae, if_neg hbe]
    norm_num [round3, round_eq]
  · have h50 : lookupMastery [("a", 50)] "a" = 50 := rfl
    simp only [averageMastery_spec, lookupMastery, List.lookup, List.filter_cons,
      List.filter_nil, haa, hba]
    norm_num [h50]

/-- Claim C8 amended: the reported average is the arithmetic mean of
the looked-up mastery (defaulting to 0 for items without a record)
over all pool items with a nonempty key, rounded to 3 decimals, and 0
when the pool has no keyed item; the computation is a pure read. -/
theorem C8_average_mean (pool : List String) (stats : List (String × ℚ)) :
    compute_average_proficiency pool stats = averageMastery_amended pool stats := by
  unfold compute_average_proficiency averageMastery_amended
  rw [avg_foldl]
  simp only [zero_add]
  by_cases h : (pool.filter (fun k => k != "")).length = 0
  · simp [h]
  · have hpos : 0 < (pool.filter (fun k => k != "")).length := Nat.pos_of_ne_zero h
    simp [h, hpos]

/-- random.sample(population, k), used by logic.py line 118 and by the
pandas df.sample fallback, modeled as k seed-driven removals without
replacement: each seed picks the index of the next chosen element
modulo the remaining population size. The getD default is unreachable
since that index is always in range. -/
def randomSample : ℕ → List ℕ → List ℕ → List ℕ
  | 0, _, _ => []
  | _ + 1, [], _ => []
  | k + 1, p :: ps, seeds =>
      let pop := p :: ps
      let i := seeds.headD 0 % pop.length
      pop.getD i 0 :: randomSample k (pop.eraseIdx i) seeds.tail

lemma randomSample_spec : ∀ (k : ℕ) (pop : List ℕ) (seeds : List ℕ),
    k ≤ pop.length → pop.Nodup →
    (randomSample k pop seeds).length = k ∧ (randomSample k pop seeds).Nodup ∧
    ∀ x ∈ randomSample k pop seeds, x ∈ pop := by
  intro k
  induction k with
  | zero =>
    intro pop seeds _ _
    refine ⟨rfl, List.nodup_nil, ?_⟩
    intro x hx
    simp [randomSample] at hx
  | succ k ih =>
    intro pop seeds h hn
    match pop with
    | [] => simp at h
    | p :: ps =>
      set pop2 : List ℕ := p :: ps with hpop
      have hlen : 0 < pop2.length := by simp [hpop]
      set i := seeds.headD 0 % pop2.length with hi
      have hilt : i < pop2.length := Nat.mod_lt _ hlen
      have hstep : randomSample (k + 1) pop2 seeds =
          pop2.getD i 0 :: randomSample k (pop2.eraseIdx i) seeds.tail := by
        rw [hpop]
        rfl
      have hlen2 : (pop2.eraseIdx i).length = pop2.length - 1 := by
        rw [List.length_eraseIdx]
        simp [hilt]
      have hn2 : (pop2.eraseIdx i).Nodup := List.Nodup.sublist (List.eraseIdx_sublist _ i) hn
      have hrec := ih (pop2.eraseIdx i) seeds.tail (by omega) hn2
      have hhead : pop2.getD i 0 = pop2[i] := List.getD_eq_getElem pop2 0 hilt
      have hheadnot : pop2.getD i 0 ∉ pop2.eraseIdx i := by
        rw [hhead]
        exact nodup_getElem_not_mem_eraseIdx pop2 i hilt hn
      refine ⟨by rw [hstep]; simp [hrec.1], ?_, ?_⟩
      · rw [hstep]
        refine List.nodup_cons.mpr ⟨?_, hrec.2.1⟩
        intro hmem
        exact hheadnot (hrec.2.2 _ hmem)
      · rw [hstep]
        intro x hx
        rcases List.mem_cons.mp hx with hx | hx
        · rw [hx, hhead]
          exact List.getElem_mem hilt
        · exact List.Sublist.subset (List.eraseIdx_sublist pop2 i) (hrec.2.2 _ hx)

/-- Distractor row selection, logic.py lines 100-119 (getRandomRows):
raise on an empty frame, on an out-of-range row position, or when the
request exceeds the remaining rows after removing the current row from
the candidates; otherwise sample count distinct remaining positions.
The frame is represented by its length, its rows by their positions
(the unique RangeIndex the app always passes after reset_index), and
the three raise branches by Except.error. -/
def getRandomRows (dfLen row count : ℕ) (seeds : List ℕ) : Except String (List ℕ) :=
  if dfLen = 0 then Except.error ("DataFrame is empty")
  else if ¬ (row < dfLen) then Except.error ("row out of range")
  else
    let available := (List.range dfLen).erase row
    if available.length < count then Except.error ("Requested more rows than available")
    else Except.ok (randomSample count available seeds)

/-- True exactly on the refusal results. -/
def isError {α : Type} : Except String α → Bool
  | Except.error _ => true
  | Except.ok _ => false

/-- Claim C10: getRandomRows errors exactly when the frame is empty,
the row position is out of range, or count exceeds the number of
remaining rows after excluding the current row; on success it returns
exactly count distinct positions, never including the current row, all
inside the frame. -/
theorem C10_getRandomRows (dfLen row count : ℕ) (seeds : List ℕ) :
    (isError (getRandomRows dfLen row count seeds) = true ↔
      (dfLen = 0 ∨ dfLen ≤ row ∨ dfLen - 1 < count)) ∧
    (∀ out : List ℕ, getRandomRows dfLen row count seeds = Except.ok out →
      out.length = count ∧ out.Nodup ∧ row ∉ out ∧ ∀ x ∈ out, x < dfLen) := by
  by_cases h0 : dfLen = 0
  · constructor
    · simp [getRandomRows, h0, isError]
    · intro out hout
      rw [getRandomRows, if_pos h0] at hout
      exact absurd hout (by simp)
  · by_cases hrow : row < dfLen
    · have hmem : row ∈ List.range dfLen := List.mem_range.mpr hrow
      have hlen : ((List.range dfLen).erase row).length = dfLen - 1 := by
        rw [List.length_erase_of_mem hmem, List.length_range]
      by_cases hcnt : ((List.range dfLen).erase row).length < count
      · constructor
        · simp only [getRandomRows, if_neg h0, if_neg (by omega : ¬ ¬ (row < dfLen))]
          rw [if_pos hcnt]
          simp [isError]
          omega
        · intro out hout
          simp only [getRandomRows, if_neg h0, if_neg (by omega : ¬ ¬ (row < dfLen))] at hout
          rw [if_pos hcnt] at hout
          exact absurd hout (by simp)
      · have hav : ((List.range dfLen).erase row).Nodup := (List.nodup_range dfLen).erase row
        have hspec := randomSample_spec count ((List.range dfLen).erase row) seeds (by omega) hav
        constructor
        · simp only [getRandomRows, if_neg h0, if_neg (by omega : ¬ ¬ (row < dfLen))]
          rw [if_neg hcnt]
          simp [isError]
          omega
        · intro out hout
          simp only [getRandomRows, if_neg h0, if_neg (by omega : ¬ ¬ (row < dfLen))] at hout
          rw [if_neg hcnt] at hout
          have hout2 : randomSample count ((List.range dfLen).erase row) seeds = out := by
            exact (Except.ok.injEq _ _).mp hout.symm ▸ rfl
          rw [← hout2]
          refine ⟨hspec.1, hspec.2.1, ?_, ?_⟩
          · intro hmem2
            exact ((List.nodup_range dfLen).not_mem_erase) (hspec.2.2 _ hmem2)
          · intro x hx
            exact List.mem_range.mp (List.mem_of_mem_erase (hspec.2.2 _ hx))
    · constructor
      · simp [getRandomRows, if_neg h0, hrow, isError]
        omega
      · intro out hout
        rw [getRandomRows, if_neg h0, if_pos (by omega : ¬ (row < dfLen))] at hout
        exact absurd hout (by simp)

/-- Witness for C10: a 5-row frame, current row 2, two distractors
drawn with a concrete seed stream give positions 0 and 1; and the
empty frame refuses. -/
theorem C10_witness :
    (([0, 1] : List ℕ).length = 2 ∧ ([0, 1] : List ℕ).Nodup ∧ 2 ∉ ([0, 1] : List ℕ) ∧
      (∀ x ∈ ([0, 1] : List ℕ), x < 5)) ∧
    isError (getRandomRows 0 0 0 []) = true :=
  ⟨(C10_getRandomRows 5 2 2 [0, 0]).2 [0, 1] rfl,
   (C10_getRandomRows 0 0 0 []).1.mpr (Or.inl rfl)⟩

/-- Drill session start, ui.py lines 1651-1706 (DrillStart), modeled up
to the sampled row positions: the candidate pool is represented by its
per-row weights, the result is either a refusal message or the triple
(cooldown tier, session id, sampled positions), paired with the
pw_session_counter value after the call. The uniform branch models
getRandomSample (pandas df.sample without replacement) through the
same seed-stream sampler. Rendering, timers and page transitions are
presentation and outside the model. -/
def drillStart (maxCount : ℕ) (poolWeights : List ℚ) (requested : ℕ) (prioritize : Bool)
    (sessionCounter : ℤ) (rnd : List (ℚ × ℕ)) (seeds : List ℕ) :
    Except String (ℕ × ℤ × List ℕ) × ℤ :=
  if maxCount < 1 then
    (Except.error ("No cards available, choose at least one level."), sessionCounter)
  else if min (max 4 requested) poolWeights.length < 4 then
    (Except.error ("Require at least 4 cards to start a drill."), sessionCounter)
  else
    let maxAvailable := poolWeights.length
    let finalCount := min (max 4 requested) maxAvailable
    let coverage : ℚ := if 0 < maxAvailable then (finalCount : ℚ) / (maxAvailable : ℚ) else 1
    let cooldown : ℕ :=
      if 2/5 ≤ coverage then 0
      else if 1/4 ≤ coverage then 1
      else if 3/25 ≤ coverage then 2
      else 3
    let newCounter : ℤ := if prioritize then sessionCounter + 1 else sessionCounter
    let sessionId : ℤ := if prioritize then newCounter else 0
    let sample : List ℕ :=
      if prioritize then get_pw_weighted_sample poolWeights finalCount rnd
      else randomSample finalCount (List.range poolWeights.length) seeds
    if sample.length < 4 then
      (Except.error ("Require at least 4 cards to start a drill."), newCounter)
    else
      (Except.ok (cooldown, sessionId, sample), newCounter)

/-- Claim C9: with fewer than 4 items available after filtering, the
drill refuses to start: a user-facing error is returned, no session
triple is produced, and the session counter is untouched (both refusal
paths return before the increment at ui.py line 1685 and before any
sampling or stats mutation). -/
theorem C9_refuse_small_pool (maxCount : ℕ) (poolWeights : List ℚ) (requested : ℕ)
    (prioritize : Bool) (sc : ℤ) (rnd : List (ℚ × ℕ)) (seeds : List ℕ)
    (h : poolWeights.length < 4) :
    isError (drillStart maxCount poolWeights requested prioritize sc rnd seeds).1 = true ∧
    (drillStart maxCount poolWeights requested prioritize sc rnd seeds).2 = sc := by
  by_cases hmc : maxCount < 1
  · unfold drillStart
    rw [if_pos hmc]
    exact ⟨rfl, rfl⟩
  · have hfc : min (max 4 requested) poolWeights.length < 4 := by omega
    unfold drillStart
    rw [if_neg hmc, if_pos hfc]
    exact ⟨rfl, rfl⟩

/-- Witness for C9 at a concrete 3-item pool. -/
theorem C9_witness :
    isError (drillStart 10 [1, 1, 1] 10 true 7 [] []).1 = true ∧
    (drillStart 10 [1, 1, 1] 10 true 7 [] []).2 = 7 :=
  C9_refuse_small_pool 10 [1, 1, 1] 10 true 7 [] [] (by norm_num)

end KanjiDriller
